import Mathlib

/-!
Verification of the testtools stream-result protocol
(`src/testtools/_itesttools.py`).

The repository source is purely declarative: it defines the zope
interfaces `IStreamResult`, `IExtendedTestResult`, etc., together with
docstrings describing the event protocol.  The protocol engine itself
(Run Session, Per-Test State Tracker, Tag Context, Multiplexer) is not
part of the source tree, so the executable model below is built from the
specification's words, as flagged in each doc comment.
-/

namespace TestTools

/-- Test status values carried by `status(...)` events, as enumerated in
the `IStreamResult.status` docstring.  `none` and `inprogress` are
interim, the rest are final.  The source status string `exists` is
spelled `texists` here because `exists` is reserved in Lean. -/
inductive TestStatus where
  | none
  | inprogress
  | texists
  | xfail
  | uxsuccess
  | success
  | fail
  | skip
deriving DecidableEq

/-- Whether a status is final (closes the lifecycle of its key), per the
`IStreamResult.status` docstring: every status other than `none` and
`inprogress` is final. -/
def TestStatus.isFinal : TestStatus → Bool
  | TestStatus.none => false
  | TestStatus.inprogress => false
  | _ => true

/-- Whether a final status makes the run unsuccessful, per the
`IStreamResult.status` docstring: `uxsuccess` and `fail` are considered
failures, `xfail` and `skip` are purely informative. -/
def TestStatus.isFailLike : TestStatus → Bool
  | TestStatus.fail => true
  | TestStatus.uxsuccess => true
  | _ => false

/-- Modelled from the spec: the lifecycle state of a Test State Record
(spec section 3), `unstarted → inprogress → finalized(status)`.  The
tracker implementation is absent from the source tree. -/
inductive RecordState where
  | unstarted
  | inprogress
  | finalized (s : TestStatus)
deriving DecidableEq

def RecordState.isFinalized : RecordState → Bool
  | RecordState.finalized _ => true
  | _ => false

def RecordState.isInProgress : RecordState → Bool
  | RecordState.inprogress => true
  | _ => false

/-- Whether a record state counts against `wasSuccessful`, per spec
section 4.4: only a record finalized with a fail-like status does. -/
def RecordState.isFailLike : RecordState → Bool
  | RecordState.finalized s => s.isFailLike
  | _ => false

/-- Modelled from the spec: one named attachment of a Test State Record,
accumulated bytes plus the eof flag (spec section 3,
`open_attachments`).  Bytes are modelled as natural numbers. -/
structure Attachment where
  content : List Nat
  eof : Bool
deriving DecidableEq

/-- Modelled from the spec: a Test State Record (spec section 3), the
lifecycle state together with the accumulated attachments, keyed by
name. -/
structure TestRecord where
  state : RecordState
  attachments : List (String × Attachment)
deriving DecidableEq

def emptyRecord : TestRecord :=
  TestRecord.mk RecordState.unstarted []

/-- Modelled from the spec: an event of the stream protocol (spec
section 3), mirroring the parameters of `IStreamResult.status`.  Fields
with no bearing on the verified claims (tags, runnable, mime type,
timestamp) are omitted. -/
structure Event where
  test_id : Option String
  test_status : TestStatus
  file_name : Option String
  file_bytes : List Nat
  eof : Bool
  route_code : Option String
deriving DecidableEq

/-- Records are keyed by `(test_id, route_code)` (spec section 3). -/
abbrev Key := String × Option String

/-- First-match lookup in an association list. -/
def alistLookup {α β : Type} [DecidableEq α] : List (α × β) → α → Option β
  | [], _ => Option.none
  | p :: rest, key => if p.1 = key then Option.some p.2 else alistLookup rest key

/-- Replace the first binding of `key`, or append one if absent. -/
def alistUpdate {α β : Type} [DecidableEq α] : List (α × β) → α → β → List (α × β)
  | [], key, b => [(key, b)]
  | p :: rest, key, b =>
    if p.1 = key then (key, b) :: rest else p :: alistUpdate rest key b

/-- Modelled from the spec: a Run Session (spec section 3), absent from
the source tree.  `records` maps keys to Test State Records, `started`
and `stopped` guard the valid event window, and `discarded` is the
diagnostic counter required for silently dropped late events (spec
section 7, DiscardedEvent). -/
structure Session where
  started : Bool
  stopped : Bool
  records : List (Key × TestRecord)
  discarded : Nat
deriving DecidableEq

def initSession : Session :=
  Session.mk false false [] 0

/-- A freshly started session, `start initSession` unwrapped. -/
def startedSession : Session :=
  Session.mk true false [] 0

/-- Modelled from the spec: `start()` of the Run Session (spec section
4.4): transition `started := true`; double start is a usage error. -/
def start (sess : Session) : Except String Session :=
  if sess.started = true then Except.error "startTestRun called twice"
  else Except.ok (Session.mk true sess.stopped sess.records sess.discarded)

/-- Modelled from the spec: `stop()` of the Run Session (spec section
4.4): transition `stopped := true`.  The failed-or-hung set is computed
by `failedOrHung` from the resulting state. -/
def stop (sess : Session) : Session :=
  Session.mk sess.started true sess.records sess.discarded

/-- Modelled from the spec: the failed-or-hung set (spec section 4.4):
every record whose state is `inprogress`, i.e. started but never
finalized. -/
def failedOrHung (sess : Session) : List Key :=
  (sess.records.filter (fun kr => kr.2.state.isInProgress)).map Prod.fst

/-- Modelled from the spec: `wasSuccessful()` (spec section 4.4): true
iff no record is finalized with a fail-like status and the
failed-or-hung set is empty. -/
def wasSuccessful (sess : Session) : Bool :=
  sess.records.all (fun kr => !(kr.2.state.isFailLike)) && (failedOrHung sess).isEmpty

/-- Modelled from the spec: the status part of the Per-Test State
Tracker transition (spec section 4.3).  On a non-finalized key, a status
other than `none` moves the record to `inprogress` or directly to
`finalized`; on a finalized key the state never changes and a non-`none`
status is counted as discarded.  Returns the new state and the discard
flag. -/
def statusTransition (st : RecordState) (s : TestStatus) : RecordState × Bool :=
  match st with
  | RecordState.finalized f =>
    (RecordState.finalized f, decide (s ≠ TestStatus.none))
  | st0 =>
    match s with
    | TestStatus.none => (st0, false)
    | TestStatus.inprogress => (RecordState.inprogress, false)
    | s0 => (RecordState.finalized s0, false)

/-- Modelled from the spec: the attachment part of the tracker
transition (spec section 4.3).  A chunk for a finalized key, or for a
name whose eof was already set, is silently discarded; otherwise the
bytes are appended and the eof flag recorded.  Returns the new
attachment map and the discard flag. -/
def attachApply (atts : List (String × Attachment)) (wasFinal : Bool)
    (nm : String) (bs : List Nat) (e : Bool) :
    List (String × Attachment) × Bool :=
  if wasFinal then (atts, true)
  else
    match alistLookup atts nm with
    | Option.some a =>
      if a.eof then (atts, true)
      else (alistUpdate atts nm (Attachment.mk (a.content ++ bs) e), false)
    | Option.none => (alistUpdate atts nm (Attachment.mk bs e), false)

/-- Modelled from the spec: one tracker step on a single Test State
Record (spec section 4.3).  Returns the updated record and the number of
discarded sub-events (status and attachment counted separately). -/
def recordStep (r : TestRecord) (ev : Event) : TestRecord × Nat :=
  let attRes :=
    match ev.file_name with
    | Option.none => (r.attachments, false)
    | Option.some nm => attachApply r.attachments r.state.isFinalized nm ev.file_bytes ev.eof
  let stRes := statusTransition r.state ev.test_status
  (TestRecord.mk stRes.1 attRes.1,
    (if attRes.2 then 1 else 0) + (if stRes.2 then 1 else 0))

/-- Modelled from the spec: the in-window part of `apply(event)` (spec
section 4.4): route the event to the Test State Record keyed by
`(test_id, route_code)`; an event with no `test_id` concerns the run as
a whole and touches no record. -/
def applyEventCore (sess : Session) (ev : Event) : Session :=
  match ev.test_id with
  | Option.none => sess
  | Option.some tid =>
    let key : Key := (tid, ev.route_code)
    let step := recordStep ((alistLookup sess.records key).getD emptyRecord) ev
    Session.mk sess.started sess.stopped
      (alistUpdate sess.records key step.1)
      (sess.discarded + step.2)

/-- Modelled from the spec: `apply(event)` of the Run Session (spec
section 4.4): rejected as a usage error when the session is not started
or already stopped, processed by the tracker otherwise. -/
def applyEvent (sess : Session) (ev : Event) : Except String Session :=
  if sess.started = false then Except.error "event before startTestRun"
  else if sess.stopped = true then Except.error "event after stopTestRun"
  else Except.ok (applyEventCore sess ev)

/-- Fold a list of events through `applyEvent`, stopping at the first
usage error. -/
def applyEvents (sess : Session) (es : List Event) : Except String Session :=
  match es with
  | [] => Except.ok sess
  | e :: rest =>
    match applyEvent sess e with
    | Except.error m => Except.error m
    | Except.ok s1 => applyEvents s1 rest

/-- The state of the record keyed `k`, `unstarted` when no record
exists. -/
def recState (sess : Session) (k : Key) : RecordState :=
  ((alistLookup sess.records k).getD emptyRecord).state

/-- The attachment named `nm` of the record keyed `k`. -/
def attContent (sess : Session) (k : Key) (nm : String) : Option Attachment :=
  alistLookup ((alistLookup sess.records k).getD emptyRecord).attachments nm

/-- Modelled from the spec: `apply(new_tags, gone_tags)` of the Tag
Context (spec section 4.2), absent from the source tree: add every tag
in `new_tags`, remove every tag in `gone_tags`, with add winning over
remove in the same call. -/
def tagsApply (current new_tags gone_tags : Finset String) : Finset String :=
  (current \ gone_tags) ∪ new_tags

/-- A pure-status event with no route code. -/
def statusEvent (tid : String) (st : TestStatus) : Event :=
  Event.mk (Option.some tid) st Option.none [] false Option.none

/-- A pure-status event carrying a route code. -/
def routedStatusEvent (tid : String) (st : TestStatus) (rc : String) : Event :=
  Event.mk (Option.some tid) st Option.none [] false (Option.some rc)

/-- A pure attachment-chunk event with no route code. -/
def fileEvent (tid : String) (nm : String) (bs : List Nat) (e : Bool) : Event :=
  Event.mk (Option.some tid) TestStatus.none (Option.some nm) bs e Option.none

/-- An attachment-chunk event for an arbitrary key: `test_id`,
`route_code` and attachment name are all parameters. -/
def chunkEvent (tid : String) (rc : Option String) (nm : String)
    (bs : List Nat) (e : Bool) : Event :=
  Event.mk (Option.some tid) TestStatus.none (Option.some nm) bs e rc

/-- The event sequence submitting the chunks of `bss` in order (each
with `eof=false`) followed by a closing `eof=true` event for the same
name. -/
def chunkEvents (tid : String) (rc : Option String) (nm : String) :
    List (List Nat) → List Event
  | [] => [chunkEvent tid rc nm [] true]
  | bs :: rest => chunkEvent tid rc nm bs false :: chunkEvents tid rc nm rest

/-- Concatenation of a list of chunks in submission order. -/
def concatAll : List (List Nat) → List Nat
  | [] => []
  | bs :: rest => bs ++ concatAll rest

/-- The accumulated bytes of a still-open attachment slot: an absent
attachment is open with no bytes yet, a stored attachment is open with
its content unless its eof was set. -/
def openContent : Option Attachment → Option (List Nat)
  | Option.none => Option.some []
  | Option.some a => if a.eof then Option.none else Option.some a.content

/-- A started session holding one record finalized with `success`, used
as a concrete instance in witnesses. -/
def sessFinalized : Session :=
  Session.mk true false
    [(("t1", Option.none), TestRecord.mk (RecordState.finalized TestStatus.success) [])] 0

/-- A started session holding one record whose `stdout` attachment is
closed (eof already set). -/
def sessClosedAtt : Session :=
  Session.mk true false
    [(("t1", Option.none),
      TestRecord.mk RecordState.inprogress
        [("stdout", Attachment.mk [72, 101, 108, 108, 111] true)])] 0

/-- A stopped session whose records are finalized `xfail` and `skip`. -/
def sessInformative : Session :=
  Session.mk true true
    [(("a", Option.none), TestRecord.mk (RecordState.finalized TestStatus.xfail) []),
     (("b", Option.none), TestRecord.mk (RecordState.finalized TestStatus.skip) [])] 0

/-- Calls of the base `StreamResult` class interface:
`startTestRun`, `stopTestRun` and `status` with the full parameter set
of `IStreamResult.status` (defaults `runnable=True`, `eof=False` are
just particular argument values here). -/
inductive StreamCall where
  | startTestRun
  | stopTestRun
  | status (test_id : Option String) (test_status : TestStatus)
      (runnable : Bool) (file_name : Option String) (file_bytes : List Nat)
      (eof : Bool) (route_code : Option String)

/-- Modelled from the spec: one method call of the base `StreamResult`
class, which per the `IStreamResult` docstring "does no accounting or
processing, rather it just provides an empty implementation of every
method"; the class body itself is not in the source tree.  The
observable state `s` is arbitrary and is returned untouched. -/
def baseStreamStep {α : Type} (s : α) (_ : StreamCall) : α := s

/-- A whole call sequence against the base `StreamResult`. -/
def baseStreamRun {α : Type} (s : α) (cs : List StreamCall) : α :=
  cs.foldl baseStreamStep s

theorem alistLookup_update_self {α β : Type} [DecidableEq α]
    (l : List (α × β)) (k : α) (b : β) :
    alistLookup (alistUpdate l k b) k = Option.some b := by
  induction l with
  | nil => simp [alistUpdate, alistLookup]
  | cons p rest ih =>
    by_cases h : p.1 = k
    · simp [alistUpdate, alistLookup, h]
    · simp [alistUpdate, alistLookup, h, ih]

theorem alistLookup_update_ne {α β : Type} [DecidableEq α]
    (l : List (α × β)) (k k0 : α) (b : β) (h : k0 ≠ k) :
    alistLookup (alistUpdate l k0 b) k = alistLookup l k := by
  induction l with
  | nil => simp [alistUpdate, alistLookup, h]
  | cons p rest ih =>
    by_cases h1 : p.1 = k0
    · simp [alistUpdate, alistLookup, h1, h]
    · simp [alistUpdate, alistLookup, h1, ih]

theorem statusTransition_keeps_finalized (s t : TestStatus) :
    (statusTransition (RecordState.finalized s) t).1 = RecordState.finalized s := rfl

theorem recordStep_state (r : TestRecord) (ev : Event) :
    (recordStep r ev).1.state = (statusTransition r.state ev.test_status).1 := rfl

theorem applyEvent_ok_eq {sess s1 : Session} {ev : Event}
    (h : applyEvent sess ev = Except.ok s1) : s1 = applyEventCore sess ev := by
  unfold applyEvent at h
  split_ifs at h
  all_goals simp_all

theorem recState_applyEventCore_finalized (sess : Session) (ev : Event)
    (k : Key) (s : TestStatus)
    (h : recState sess k = RecordState.finalized s) :
    recState (applyEventCore sess ev) k = RecordState.finalized s := by
  cases hid : ev.test_id with
  | none => simpa [applyEventCore, hid, recState] using h
  | some tid =>
    by_cases hk : ((tid, ev.route_code) : Key) = k
    · subst hk
      have hrs : ((alistLookup sess.records (tid, ev.route_code)).getD emptyRecord).state
          = RecordState.finalized s := h
      simp [applyEventCore, hid, recState, alistLookup_update_self, recordStep_state, hrs,
        statusTransition_keeps_finalized]
    · simp only [applyEventCore, hid, recState]
      rw [alistLookup_update_ne _ _ _ _ hk]
      exact h

/-- C2: for every key `(test_id, route_code)`, once the Test State
Record reaches `finalized s`, applying any further sequence of status or
attachment events leaves the state value `finalized s` unchanged. -/
theorem finalized_state_stable (es : List Event) :
    ∀ (sess sess' : Session) (tid : String) (rc : Option String) (s : TestStatus),
      recState sess (tid, rc) = RecordState.finalized s →
      applyEvents sess es = Except.ok sess' →
      recState sess' (tid, rc) = RecordState.finalized s := by
  induction es with
  | nil =>
    intro sess sess' tid rc s h happ
    simp [applyEvents] at happ
    subst happ
    exact h
  | cons e rest ih =>
    intro sess sess' tid rc s h happ
    cases hae : applyEvent sess e with
    | error m => simp [applyEvents, hae] at happ
    | ok s1 =>
      have h1 : recState s1 (tid, rc) = RecordState.finalized s := by
        rw [applyEvent_ok_eq hae]
        exact recState_applyEventCore_finalized sess e (tid, rc) s h
      have happ1 : applyEvents s1 rest = Except.ok sess' := by
        simpa [applyEvents, hae] using happ
      exact ih s1 sess' tid rc s h1 happ1

/-- Witness for C2: a record finalized `success` stays `finalized
success` after a late `fail` status event. -/
theorem finalized_state_stable_witness :
    recState
      (Session.mk true false
        [(("t1", Option.none),
          TestRecord.mk (RecordState.finalized TestStatus.success) [])] 1)
      ("t1", Option.none) = RecordState.finalized TestStatus.success :=
  finalized_state_stable [statusEvent "t1" TestStatus.fail] sessFinalized
    (Session.mk true false
      [(("t1", Option.none),
        TestRecord.mk (RecordState.finalized TestStatus.success) [])] 1)
    "t1" Option.none TestStatus.success (by decide) (by rfl)

theorem isInProgress_iff (st : RecordState) :
    st.isInProgress = true ↔ st = RecordState.inprogress := by
  cases st <;> simp [RecordState.isInProgress]

theorem mem_failedOrHung (sess : Session) (k : Key) :
    k ∈ failedOrHung sess ↔
      ∃ r : TestRecord, (k, r) ∈ sess.records ∧ r.state = RecordState.inprogress := by
  simp only [failedOrHung, List.mem_map, List.mem_filter]
  constructor
  · rintro ⟨⟨k1, r⟩, ⟨hmem, hp⟩, hk⟩
    cases hk
    exact ⟨r, hmem, (isInProgress_iff r.state).mp hp⟩
  · rintro ⟨r, hmem, hs⟩
    exact ⟨(k, r), ⟨hmem, (isInProgress_iff r.state).mpr hs⟩, rfl⟩

/-- C1: `stop()` computes the failed-or-hung set as exactly the keys
whose record state is `inprogress` at stop time; in the concrete session
where `t2` received only an `inprogress` status before stop, the
failed-or-hung set is exactly `{t2}` and `wasSuccessful` is false. -/
theorem stop_computes_failedOrHung :
    (∀ (sess : Session) (k : Key),
        k ∈ failedOrHung (stop sess) ↔
          ∃ r : TestRecord, (k, r) ∈ sess.records ∧
            r.state = RecordState.inprogress) ∧
    (start initSession = Except.ok startedSession ∧
      applyEvents startedSession [statusEvent "t2" TestStatus.inprogress] =
        Except.ok (Session.mk true false
          [(("t2", Option.none), TestRecord.mk RecordState.inprogress [])] 0) ∧
      failedOrHung (stop (Session.mk true false
          [(("t2", Option.none), TestRecord.mk RecordState.inprogress [])] 0)) =
        [(("t2", Option.none) : Key)] ∧
      wasSuccessful (stop (Session.mk true false
          [(("t2", Option.none), TestRecord.mk RecordState.inprogress [])] 0)) =
        false) :=
  ⟨fun sess k => mem_failedOrHung (stop sess) k, rfl, rfl, rfl, rfl⟩

theorem stateFailLike_eq_false_iff (st : RecordState) :
    st.isFailLike = false ↔
      ∀ s : TestStatus, st = RecordState.finalized s → s.isFailLike = false := by
  cases st <;> simp [RecordState.isFailLike]

/-- C6: `wasSuccessful()` is true iff no record is finalized with a
fail-like status and the failed-or-hung set is empty; fail-like means
exactly `fail` or `uxsuccess`, so `xfail` and `skip` finalizations (as
in the concrete `sessInformative`) do not make the result
unsuccessful. -/
theorem wasSuccessful_iff :
    (∀ sess : Session,
        wasSuccessful sess = true ↔
          ((∀ (k : Key) (r : TestRecord) (s : TestStatus),
              (k, r) ∈ sess.records → r.state = RecordState.finalized s →
              s.isFailLike = false) ∧
            failedOrHung sess = [])) ∧
    TestStatus.isFailLike TestStatus.fail = true ∧
    TestStatus.isFailLike TestStatus.uxsuccess = true ∧
    TestStatus.isFailLike TestStatus.xfail = false ∧
    TestStatus.isFailLike TestStatus.skip = false ∧
    wasSuccessful sessInformative = true := by
  refine ⟨?_, rfl, rfl, rfl, rfl, rfl⟩
  intro sess
  simp only [wasSuccessful, Bool.and_eq_true, List.all_eq_true, List.isEmpty_iff]
  constructor
  · rintro ⟨hall, hemp⟩
    refine ⟨?_, hemp⟩
    intro k r s hmem hst
    have hf := hall (k, r) hmem
    simp only [Bool.not_eq_true'] at hf
    exact (stateFailLike_eq_false_iff r.state).mp hf s hst
  · rintro ⟨hno, hemp⟩
    refine ⟨?_, hemp⟩
    intro kr hmem
    simp only [Bool.not_eq_true']
    exact (stateFailLike_eq_false_iff kr.2.state).mpr
      (fun s hs => hno kr.1 kr.2 s hmem hs)

/-- C7: `stop()` is idempotent: for every Run Session, stopping twice
yields the same failed-or-hung set as stopping once. -/
theorem stop_idempotent (sess : Session) :
    failedOrHung (stop (stop sess)) = failedOrHung (stop sess) := rfl

theorem recordStep_discard_pos (r : TestRecord) (ev : Event)
    (h : (r.state.isFinalized = true ∧
            (ev.test_status ≠ TestStatus.none ∨ ev.file_name ≠ Option.none)) ∨
          (∃ nm a, ev.file_name = Option.some nm ∧
            alistLookup r.attachments nm = Option.some a ∧ a.eof = true)) :
    1 ≤ (recordStep r ev).2 := by
  rcases h with ⟨hfin, hor⟩ | ⟨nm, a, hfn, hla, heof⟩
  · rcases hor with hst | hfn
    · obtain ⟨s, hs⟩ : ∃ s, r.state = RecordState.finalized s := by
        cases hrs : r.state <;> simp_all [RecordState.isFinalized]
      simp [recordStep, statusTransition, hs, hst]
    · obtain ⟨nm, hnm⟩ : ∃ nm, ev.file_name = Option.some nm := by
        cases hf : ev.file_name <;> simp_all
      simp [recordStep, hnm, attachApply, hfin]
  · by_cases hfin : r.state.isFinalized = true
    · simp [recordStep, hfn, attachApply, hfin]
    · simp [recordStep, hfn, attachApply, hfin, hla, heof]

/-- C3: an event submitted after its key was finalized, or a chunk for
an attachment name whose eof was already set, is silently discarded: the
operation returns normally and the discard is observable through the
`discarded` counter, which strictly increases. -/
theorem late_event_discarded (sess : Session) (ev : Event) (tid : String)
    (hs : sess.started = true) (hns : sess.stopped = false)
    (hid : ev.test_id = Option.some tid)
    (hlate :
      ((recState sess (tid, ev.route_code)).isFinalized = true ∧
          (ev.test_status ≠ TestStatus.none ∨ ev.file_name ≠ Option.none)) ∨
        (∃ nm a, ev.file_name = Option.some nm ∧
          attContent sess (tid, ev.route_code) nm = Option.some a ∧
          a.eof = true)) :
    applyEvent sess ev = Except.ok (applyEventCore sess ev) ∧
    sess.discarded < (applyEventCore sess ev).discarded := by
  refine ⟨by simp [applyEvent, hs, hns], ?_⟩
  have hd : 1 ≤ (recordStep
      ((alistLookup sess.records (tid, ev.route_code)).getD emptyRecord) ev).2 :=
    recordStep_discard_pos _ ev hlate
  have heq : (applyEventCore sess ev).discarded =
      sess.discarded + (recordStep
        ((alistLookup sess.records (tid, ev.route_code)).getD emptyRecord) ev).2 := by
    simp [applyEventCore, hid]
  omega

/-- Witness for C3: a `fail` status arriving on a key already finalized
`success` is accepted without error and bumps the discard counter. -/
theorem late_event_discarded_witness :
    applyEvent sessFinalized (statusEvent "t1" TestStatus.fail) =
      Except.ok (applyEventCore sessFinalized (statusEvent "t1" TestStatus.fail)) ∧
    sessFinalized.discarded <
      (applyEventCore sessFinalized (statusEvent "t1" TestStatus.fail)).discarded :=
  late_event_discarded sessFinalized (statusEvent "t1" TestStatus.fail) "t1"
    rfl rfl rfl (Or.inl ⟨by decide, Or.inl (by decide)⟩)

theorem attContent_applyEventCore_closed (sess : Session) (ev : Event)
    (k : Key) (nm : String) (a : Attachment)
    (hc : attContent sess k nm = Option.some a) (he : a.eof = true) :
    attContent (applyEventCore sess ev) k nm = Option.some a := by
  cases hid : ev.test_id with
  | none => simpa [applyEventCore, hid, attContent] using hc
  | some tid =>
    by_cases hk : ((tid, ev.route_code) : Key) = k
    · subst hk
      have hc' : alistLookup
          ((alistLookup sess.records (tid, ev.route_code)).getD emptyRecord).attachments nm
          = Option.some a := hc
      simp only [applyEventCore, hid, attContent]
      rw [alistLookup_update_self, Option.getD_some]
      cases hfn : ev.file_name with
      | none => simpa [recordStep, hfn] using hc'
      | some nm2 =>
        by_cases hfin :
            ((alistLookup sess.records (tid, ev.route_code)).getD emptyRecord).state.isFinalized = true
        · simpa [recordStep, hfn, attachApply, hfin] using hc'
        · by_cases hnm : nm2 = nm
          · subst hnm
            simp [recordStep, hfn, attachApply, hfin, hc', he]
          · cases hl2 : alistLookup
                ((alistLookup sess.records (tid, ev.route_code)).getD emptyRecord).attachments nm2 with
            | none =>
              simp only [recordStep, hfn, attachApply, hfin, hl2]
              simpa [alistLookup_update_ne _ _ _ _ hnm] using hc'
            | some a2 =>
              by_cases he2 : a2.eof = true
              · simpa [recordStep, hfn, attachApply, hfin, hl2, he2] using hc'
              · simp only [recordStep, hfn, attachApply, hfin, hl2]
                simpa [he2, alistLookup_update_ne _ _ _ _ hnm] using hc'
    · simp only [applyEventCore, hid, attContent]
      rw [alistLookup_update_ne _ _ _ _ hk]
      exact hc

theorem statusTransition_none (st : RecordState) :
    (statusTransition st TestStatus.none).1 = st := by
  cases st <;> rfl

theorem applyEventCore_chunk (sess : Session) (tid : String) (rc : Option String)
    (nm : String) (bs : List Nat) (e : Bool) (c : List Nat)
    (hnf : (recState sess (tid, rc)).isFinalized = false)
    (hopen : openContent (attContent sess (tid, rc) nm) = Option.some c) :
    (applyEventCore sess (chunkEvent tid rc nm bs e)).started = sess.started ∧
    (applyEventCore sess (chunkEvent tid rc nm bs e)).stopped = sess.stopped ∧
    recState (applyEventCore sess (chunkEvent tid rc nm bs e)) (tid, rc) =
      recState sess (tid, rc) ∧
    attContent (applyEventCore sess (chunkEvent tid rc nm bs e)) (tid, rc) nm =
      Option.some (Attachment.mk (c ++ bs) e) := by
  have hnf' :
      ((alistLookup sess.records (tid, rc)).getD emptyRecord).state.isFinalized = false := hnf
  refine ⟨rfl, rfl, ?_, ?_⟩
  · simp [recState, applyEventCore, chunkEvent, alistLookup_update_self, recordStep_state,
      statusTransition_none]
  · simp only [attContent, applyEventCore, chunkEvent]
    rw [alistLookup_update_self, Option.getD_some]
    cases hl : alistLookup
        ((alistLookup sess.records (tid, rc)).getD emptyRecord).attachments nm with
    | none =>
      have hc : c = [] := by
        simpa [attContent, openContent, hl] using hopen
      subst hc
      simp [recordStep, attachApply, hnf', hl, alistLookup_update_self]
    | some a =>
      have heof : a.eof = false := by
        by_cases h : a.eof = true
        · exact absurd hopen (by simp [attContent, openContent, hl, h])
        · simpa using h
      have hc : c = a.content := by
        have hco := hopen
        simp [attContent, openContent, hl, heof] at hco
        exact hco.symm
      subst hc
      simp [recordStep, attachApply, hnf', hl, heof, alistLookup_update_self]

theorem chunks_accumulate (bss : List (List Nat)) :
    ∀ (sess : Session) (tid : String) (rc : Option String) (nm : String) (c : List Nat),
      sess.started = true → sess.stopped = false →
      (recState sess (tid, rc)).isFinalized = false →
      openContent (attContent sess (tid, rc) nm) = Option.some c →
      ∃ sess' : Session,
        applyEvents sess (chunkEvents tid rc nm bss) = Except.ok sess' ∧
        attContent sess' (tid, rc) nm =
          Option.some (Attachment.mk (c ++ concatAll bss) true) := by
  induction bss with
  | nil =>
    intro sess tid rc nm c hs hns hnf hopen
    obtain ⟨h1, h2, h3, h4⟩ := applyEventCore_chunk sess tid rc nm [] true c hnf hopen
    refine ⟨applyEventCore sess (chunkEvent tid rc nm [] true), ?_, ?_⟩
    · simp [chunkEvents, applyEvents, applyEvent, hs, hns]
    · rw [h4]
      simp [concatAll]
  | cons bs rest ih =>
    intro sess tid rc nm c hs hns hnf hopen
    obtain ⟨h1, h2, h3, h4⟩ := applyEventCore_chunk sess tid rc nm bs false c hnf hopen
    have hs1 : (applyEventCore sess (chunkEvent tid rc nm bs false)).started = true := by
      rw [h1, hs]
    have hns1 : (applyEventCore sess (chunkEvent tid rc nm bs false)).stopped = false := by
      rw [h2, hns]
    have hnf1 : (recState (applyEventCore sess (chunkEvent tid rc nm bs false))
        (tid, rc)).isFinalized = false := by
      rw [h3]
      exact hnf
    have hopen1 : openContent (attContent (applyEventCore sess (chunkEvent tid rc nm bs false))
        (tid, rc) nm) = Option.some (c ++ bs) := by
      rw [h4]
      simp [openContent]
    obtain ⟨sess', happ, hatt⟩ :=
      ih (applyEventCore sess (chunkEvent tid rc nm bs false)) tid rc nm (c ++ bs)
        hs1 hns1 hnf1 hopen1
    refine ⟨sess', ?_, ?_⟩
    · simp only [chunkEvents, applyEvents, applyEvent, hs, hns]
      simpa using happ
    · rw [hatt]
      simp [concatAll]

/-- C5: for every key and attachment name, submitting any sequence of
chunks (to a fresh, non-finalized slot inside the run window) followed
by `eof=true` accumulates exactly the concatenation of the chunks in
submission order; any chunk arriving for a name whose eof was already
set leaves the stored attachment unchanged; and concretely the chunks
`[72,101]` then `[108,108,111]` with eof accumulate to
`[72,101,108,108,111]` (`b"Hello"`), a later chunk being discarded
without altering the content. -/
theorem attachment_roundtrip :
    (∀ (bss : List (List Nat)) (sess : Session) (tid : String) (rc : Option String)
        (nm : String),
        sess.started = true → sess.stopped = false →
        (recState sess (tid, rc)).isFinalized = false →
        attContent sess (tid, rc) nm = Option.none →
        (applyEvents sess (chunkEvents tid rc nm bss)).map
            (fun s => attContent s (tid, rc) nm) =
          Except.ok (Option.some (Attachment.mk (concatAll bss) true))) ∧
    (∀ (sess : Session) (ev : Event) (tid : String) (nm : String) (a : Attachment)
        (sess' : Session),
        ev.test_id = Option.some tid →
        attContent sess (tid, ev.route_code) nm = Option.some a →
        a.eof = true →
        applyEvent sess ev = Except.ok sess' →
        attContent sess' (tid, ev.route_code) nm = Option.some a) ∧
    (applyEvents startedSession
        [fileEvent "t1" "stdout" [72, 101] false,
         fileEvent "t1" "stdout" [108, 108, 111] true,
         fileEvent "t1" "stdout" [120] false] =
      Except.ok (Session.mk true false
        [(("t1", Option.none),
          TestRecord.mk RecordState.unstarted
            [("stdout", Attachment.mk [72, 101, 108, 108, 111] true)])] 1) ∧
      attContent (Session.mk true false
        [(("t1", Option.none),
          TestRecord.mk RecordState.unstarted
            [("stdout", Attachment.mk [72, 101, 108, 108, 111] true)])] 1)
        ("t1", Option.none) "stdout" =
        Option.some (Attachment.mk [72, 101, 108, 108, 111] true)) := by
  refine ⟨?_, ?_, rfl, rfl⟩
  · intro bss sess tid rc nm hs hns hnf hfresh
    have hopen : openContent (attContent sess (tid, rc) nm) = Option.some [] := by
      rw [hfresh]
      simp [openContent]
    obtain ⟨sess', happ, hatt⟩ :=
      chunks_accumulate bss sess tid rc nm [] hs hns hnf hopen
    rw [happ]
    simp only [Except.map]
    rw [hatt]
    simp
  · intro sess ev tid nm a sess' hid hc he hok
    rw [applyEvent_ok_eq hok]
    exact attContent_applyEventCore_closed sess ev (tid, ev.route_code) nm a hc he

/-- Witness for C5: the chunks `[72,101]` and `[108,108,111]` submitted
for `stdout` then closed accumulate to `b"Hello"`, and a post-eof chunk
for a closed `stdout` leaves the stored `b"Hello"` attachment
unchanged. -/
theorem attachment_roundtrip_witness :
    (applyEvents startedSession
        (chunkEvents "t1" Option.none "stdout" [[72, 101], [108, 108, 111]])).map
        (fun s => attContent s ("t1", Option.none) "stdout") =
      Except.ok (Option.some (Attachment.mk [72, 101, 108, 108, 111] true)) ∧
    attContent (applyEventCore sessClosedAtt (fileEvent "t1" "stdout" [120] false))
        ("t1", Option.none) "stdout" =
      Option.some (Attachment.mk [72, 101, 108, 108, 111] true) :=
  ⟨attachment_roundtrip.1 [[72, 101], [108, 108, 111]] startedSession "t1" Option.none
      "stdout" rfl rfl (by decide) (by decide),
   attachment_roundtrip.2.1 sessClosedAtt (fileEvent "t1" "stdout" [120] false)
      "t1" "stdout" (Attachment.mk [72, 101, 108, 108, 111] true)
      (applyEventCore sessClosedAtt (fileEvent "t1" "stdout" [120] false))
      rfl (by decide) rfl rfl⟩

/-- C9: status/attachment events are only accepted between `start` and
`stop`: an event before start or after stop is rejected as a usage
error, double start is a usage error, and an event on a started,
non-stopped session is accepted for processing. -/
theorem event_window_enforced (sess : Session) (ev : Event) :
    (sess.started = false →
      applyEvent sess ev = Except.error "event before startTestRun") ∧
    (sess.started = true → sess.stopped = true →
      applyEvent sess ev = Except.error "event after stopTestRun") ∧
    (sess.started = true → sess.stopped = false →
      applyEvent sess ev = Except.ok (applyEventCore sess ev)) ∧
    (sess.started = true →
      start sess = Except.error "startTestRun called twice") :=
  ⟨fun h => by simp [applyEvent, h],
   fun h1 h2 => by simp [applyEvent, h1, h2],
   fun h1 h2 => by simp [applyEvent, h1, h2],
   fun h => by simp [start, h]⟩

/-- Witness for C9: the window checks at concrete sessions. -/
theorem event_window_enforced_witness :
    applyEvent initSession (statusEvent "t1" TestStatus.success) =
        Except.error "event before startTestRun" ∧
    applyEvent (stop startedSession) (statusEvent "t1" TestStatus.success) =
        Except.error "event after stopTestRun" ∧
    applyEvent startedSession (statusEvent "t1" TestStatus.success) =
        Except.ok (applyEventCore startedSession (statusEvent "t1" TestStatus.success)) ∧
    start startedSession = Except.error "startTestRun called twice" :=
  ⟨(event_window_enforced initSession (statusEvent "t1" TestStatus.success)).1 rfl,
   (event_window_enforced (stop startedSession) (statusEvent "t1" TestStatus.success)).2.1 rfl rfl,
   (event_window_enforced startedSession (statusEvent "t1" TestStatus.success)).2.2.1 rfl rfl,
   (event_window_enforced startedSession (statusEvent "t1" TestStatus.success)).2.2.2 rfl⟩

/-- C4: `apply(new_tags, gone_tags)` of the Tag Context yields a set
containing every tag of `new_tags`, excluding every tag of `gone_tags`
not in `new_tags`, and containing every tag present in both sets (add
wins over remove within one call). -/
theorem tagsApply_add_wins (current new_tags gone_tags : Finset String) (t : String) :
    (t ∈ new_tags → t ∈ tagsApply current new_tags gone_tags) ∧
    (t ∈ gone_tags → t ∉ new_tags → t ∉ tagsApply current new_tags gone_tags) ∧
    (t ∈ new_tags → t ∈ gone_tags → t ∈ tagsApply current new_tags gone_tags) := by
  simp only [tagsApply, Finset.mem_union, Finset.mem_sdiff]
  refine ⟨fun h => Or.inr h, ?_, fun h _ => Or.inr h⟩
  rintro hg hn (⟨_, hng⟩ | hnew)
  · exact hng hg
  · exact hn hnew

/-- Witness for C4: with `new = insert a (singleton b)` and `gone = singleton a`,
the tag `b` is added, the tag `a` survives because add wins, and a tag only in
`gone` is removed. -/
theorem tagsApply_add_wins_witness :
    "b" ∈ tagsApply ∅ {"a", "b"} {"a"} ∧
    "a" ∈ tagsApply ∅ {"a", "b"} {"a"} ∧
    "c" ∉ tagsApply {"c"} {"b"} {"c"} :=
  ⟨(tagsApply_add_wins ∅ {"a", "b"} {"a"} "b").1 (by decide),
   (tagsApply_add_wins ∅ {"a", "b"} {"a"} "a").2.2 (by decide) (by decide),
   (tagsApply_add_wins {"c"} {"b"} {"c"} "c").2.1 (by decide) (by decide)⟩

/-- C8: records keyed by distinct routes are independent: an accepted
event carrying route `r2` leaves the record keyed `(t1, r1)` untouched
when `r1 ≠ r2`; concretely, two routes reporting the same `test_id`
finalize independently with their own statuses. -/
theorem route_isolation :
    (∀ (sess : Session) (ev : Event) (t1 r1 r2 : String),
        r1 ≠ r2 → ev.route_code = Option.some r2 →
        ∀ sess', applyEvent sess ev = Except.ok sess' →
          alistLookup sess'.records (t1, Option.some r1) =
            alistLookup sess.records (t1, Option.some r1)) ∧
    (applyEvents startedSession
        [routedStatusEvent "t1" TestStatus.inprogress "r1",
         routedStatusEvent "t1" TestStatus.inprogress "r2",
         routedStatusEvent "t1" TestStatus.success "r1",
         routedStatusEvent "t1" TestStatus.fail "r2"] =
      Except.ok (Session.mk true false
        [(("t1", Option.some "r1"),
          TestRecord.mk (RecordState.finalized TestStatus.success) []),
         (("t1", Option.some "r2"),
          TestRecord.mk (RecordState.finalized TestStatus.fail) [])] 0)) := by
  constructor
  · intro sess ev t1 r1 r2 hne hrc sess' hok
    rw [applyEvent_ok_eq hok]
    cases hid : ev.test_id with
    | none => simp [applyEventCore, hid]
    | some tid =>
      have hk : ((tid, ev.route_code) : Key) ≠ (t1, Option.some r1) := by
        rw [hrc]
        intro hcontra
        simp only [Prod.mk.injEq, Option.some.injEq] at hcontra
        exact hne hcontra.2.symm
      simp only [applyEventCore, hid]
      exact alistLookup_update_ne _ _ _ _ hk
  · rfl

/-- Witness for C8: a late `fail` on route `r2` leaves the record keyed
`("t1", r1)` exactly as it was. -/
theorem route_isolation_witness :
    alistLookup
        (applyEventCore sessFinalized (routedStatusEvent "t1" TestStatus.fail "r2")).records
        ("t1", Option.some "r1") =
      alistLookup sessFinalized.records ("t1", Option.some "r1") :=
  route_isolation.1 sessFinalized (routedStatusEvent "t1" TestStatus.fail "r2")
    "t1" "r1" "r2" (by decide) rfl
    (applyEventCore sessFinalized (routedStatusEvent "t1" TestStatus.fail "r2")) rfl

/-- C10: every method of the base StreamResult implementation is a
no-op: every call sequence, with any arguments, returns normally and
leaves the observable state unchanged. -/
theorem base_stream_result_noop {α : Type} (s : α) (cs : List StreamCall) :
    baseStreamRun s cs = s := by
  induction cs with
  | nil => rfl
  | cons c rest ih => simpa [baseStreamRun, baseStreamStep, List.foldl] using ih

end TestTools
